import Mathlib

/-!
Shallow embedding of the scrann screenshot annotation tool
(sources: src/scrann/tools/pen.py, src/scrann/tools/rectangle.py,
src/src/scrann/tools/crop.py, src/scrann/tools/__init__.py,
src/src/scrann/window.py, src/scrann/dbus.py).

Coordinates and colour channels are embedded as rationals: all arithmetic
the code performs on them (subtraction, absolute value, comparison) is exact,
so ℚ models the Python floats faithfully on the inputs of interest.
Python faults (TypeError on unpacking None, AttributeError on a missing
method) are embedded as `Except String`.
-/

namespace Scrann

/-- A 2D point `(x, y)` in device coordinates (Python tuple `(event.x, event.y)`). -/
abbrev Pt := ℚ × ℚ

/-- An RGBA colour `(r, g, b, a)` (Python 4-tuple of floats). -/
abbrev Color := ℚ × ℚ × ℚ × ℚ

/-- Embedding of Python's `*x` argument unpacking applied to an `Optional`
value: unpacking `None` raises `TypeError`. -/
def starStar {α : Type} : Option α → Except String α
  | none => .error "TypeError: argument after * must be an iterable, not NoneType"
  | some a => .pure a

/-- Embedding of Python's subscript `x[0]` applied to an `Optional` tuple:
subscripting `None` raises `TypeError`. -/
def sub0 {α : Type} : Option α → Except String α
  | none => .error "TypeError: NoneType object is not subscriptable"
  | some a => .pure a

/-- Is an `Except` computation an error (a raised Python exception)? -/
def isErr {ε α : Type} : Except ε α → Bool
  | .error _ => true
  | .ok _ => false

/-- A drawing primitive deposited on a cairo surface by a completed
`stroke()` or `fill()` call: the observable content of a tool's surface. -/
inductive Prim where
  /-- A stroked line segment from `p` to `q` with colour `c` and line width `w`
  (one `move_to`; `line_to`; `stroke` round of `Pen._draw_path`). -/
  | line (p q : Pt) (c : Color) (w : ℚ)
  /-- A stroked axis-aligned rectangle outline with origin `p`, signed extent
  `w×h`, colour `c`, line width `lw` (`Rectangle._draw_rectangle`). -/
  | rectStroke (p : Pt) (w h : ℚ) (c : Color) (lw : ℚ)
  /-- A filled axis-aligned rectangle with origin `p`, signed extent `w×h`,
  colour `c` (`Crop._draw`). -/
  | rectFill (p : Pt) (w h : ℚ) (c : Color)
  deriving DecidableEq, Repr

/-- A subpath of the cairo context's current path. -/
inductive SubP where
  /-- A polyline subpath built from `move_to` / `line_to` calls. -/
  | pts (l : List Pt)
  /-- A rectangle subpath added by `Context.rectangle(x, y, w, h)`. -/
  | rect (p : Pt) (w h : ℚ)
  deriving DecidableEq, Repr

/-- The line segments obtained by stroking a polyline of points with colour
`c` and width `w`: one segment per consecutive pair; a single `move_to`
with no `line_to` strokes nothing (butt caps). -/
def pairSegs (c : Color) (w : ℚ) : List Pt → List Prim
  | p :: q :: rest => .line p q c w :: pairSegs c w (q :: rest)
  | _ => []

/-- The state of a `cairo.Context` as used by the tools: current source
colour, line width, current path, and the primitives already deposited on
the target surface. cairo's defaults: source opaque black, line width 2. -/
structure Ctx where
  source : Color
  lineWidth : ℚ
  path : List SubP
  prims : List Prim
  deriving DecidableEq, Repr

/-- A freshly created `cairo.Context` on a transparent `ImageSurface`. -/
def Ctx.init : Ctx := { source := (0, 0, 0, 1), lineWidth := 2, path := [], prims := [] }

/-- `Context.set_source_rgba(r, g, b, a)`. -/
def Ctx.setSourceRgba (c : Color) (ctx : Ctx) : Ctx := { ctx with source := c }

/-- `Context.set_line_width(w)`. -/
def Ctx.setLineWidth (w : ℚ) (ctx : Ctx) : Ctx := { ctx with lineWidth := w }

/-- `Context.move_to(x, y)`: starts a new subpath. -/
def Ctx.moveTo (p : Pt) (ctx : Ctx) : Ctx := { ctx with path := ctx.path ++ [.pts [p]] }

/-- `Context.line_to(x, y)`: extends the current subpath (acts as `move_to`
when there is no current point). -/
def Ctx.lineTo (q : Pt) (ctx : Ctx) : Ctx :=
  match ctx.path.getLast? with
  | some (.pts l) => { ctx with path := ctx.path.dropLast ++ [.pts (l ++ [q])] }
  | some (.rect _ _ _) => { ctx with path := ctx.path ++ [.pts [q]] }
  | none => { ctx with path := [.pts [q]] }

/-- `Context.rectangle(x, y, w, h)`: adds a rectangle subpath. -/
def Ctx.rectanglePath (p : Pt) (w h : ℚ) (ctx : Ctx) : Ctx :=
  { ctx with path := ctx.path ++ [.rect p w h] }

/-- The primitives deposited by stroking one subpath. -/
def SubP.strokePrims (c : Color) (lw : ℚ) : SubP → List Prim
  | .pts l => pairSegs c lw l
  | .rect p w h => [.rectStroke p w h c lw]

/-- `Context.stroke()`: strokes the current path with the current source and
line width, then clears the path. An empty current path strokes nothing. -/
def Ctx.stroke (ctx : Ctx) : Ctx :=
  { ctx with
    prims := ctx.prims ++ ctx.path.flatMap (SubP.strokePrims ctx.source ctx.lineWidth)
    path := [] }

/-- The primitives deposited by filling one subpath. Only rectangle subpaths
are ever filled by this program, so polyline filling is not modelled. -/
def SubP.fillPrims (c : Color) : SubP → List Prim
  | .pts _ => []
  | .rect p w h => [.rectFill p w h c]

/-- `Context.fill()`: fills the current path with the current source, then
clears the path. An empty current path fills nothing. -/
def Ctx.fill (ctx : Ctx) : Ctx :=
  { ctx with
    prims := ctx.prims ++ ctx.path.flatMap (SubP.fillPrims ctx.source)
    path := [] }

/-- `Tool._clear_surface` (src/scrann/tools/__init__.py): paint the whole
surface with operator CLEAR, erasing every deposited primitive. The current
path, source and line width are untouched. -/
def Ctx.clearSurface (ctx : Ctx) : Ctx := { ctx with prims := [] }

/-! ## Pen (src/scrann/tools/pen.py) -/

namespace Pen

/-- `pen.Path`: a committed freehand stroke. `color` is `Optional` because
the Python code stores `self._color`, which is `None` before the first
press. -/
structure Stroke where
  points : List Pt
  color : Option Color
  deriving DecidableEq, Repr

/-- The state of a `Pen` instance. -/
structure State where
  /-- `self._paths`: the committed history. -/
  paths : List Stroke
  /-- `self._path`: the in-progress point sequence. -/
  path : List Pt
  /-- `self._color`: `None` until the first press. -/
  color : Option Color
  /-- `self._line_width = 3`. -/
  line_width : ℚ
  /-- `self._context` on `self.surface`. -/
  ctx : Ctx
  deriving DecidableEq, Repr

/-- `Pen.__init__`. -/
def init : State :=
  { paths := [], path := [], color := none, line_width := 3, ctx := Ctx.init }

/-- The loop body of `Pen._draw_path`: for each index `i`, `move_to(points[i])`,
and when a successor exists, `line_to(points[i+1]); stroke()`. -/
def drawPathLoop : List Pt → Ctx → Ctx
  | [], ctx => ctx
  | [p], ctx => ctx.moveTo p
  | p :: q :: rest, ctx => drawPathLoop (q :: rest) (((ctx.moveTo p).lineTo q).stroke)

/-- `Pen._draw_path(points, color)`: `set_source_rgba(*color)` (raises
`TypeError` when `color` is `None`), then the move/line/stroke loop. -/
def draw_path (points : List Pt) (color : Option Color) (ctx : Ctx) : Except String Ctx := do
  let c ← starStar color
  .pure (drawPathLoop points (ctx.setSourceRgba c))

/-- `Pen._draw`: clear the surface, draw every committed stroke in order,
then draw the in-progress path. -/
def draw (s : State) : Except String State := do
  let ctx := s.ctx.clearSurface
  let ctx ← s.paths.foldlM (fun ctx p => draw_path p.points p.color ctx) ctx
  let ctx ← draw_path s.path s.color ctx
  .pure { s with ctx := ctx }

/-- `Pen.on_mouse_press(event, color)`: store the colour and set the line
width; the event's point is not recorded. -/
def on_mouse_press (color : Color) (s : State) : State :=
  { s with color := some color, ctx := s.ctx.setLineWidth s.line_width }

/-- `Pen.on_mouse_release(event)`: append `Path(list(self._path), self._color)`
to the history and clear the in-progress buffer. No redraw is performed. -/
def on_mouse_release (s : State) : State :=
  { s with paths := s.paths ++ [⟨s.path, s.color⟩], path := [] }

/-- `Pen.on_mouse_move(event)`: append the event point and redraw. -/
def on_mouse_move (p : Pt) (s : State) : Except String State :=
  draw { s with path := s.path ++ [p] }

/-- `Pen.undo()`: when the history is non-empty, pop the last stroke and
redraw; otherwise do nothing. -/
def undo (s : State) : Except String State :=
  if s.paths.length > 0 then draw { s with paths := s.paths.dropLast }
  else .pure s

end Pen

/-! ## Rectangle (src/scrann/tools/rectangle.py) -/

namespace Rectangle

/-- `rectangle.R`: a committed rectangle. The Python code stores
`(self._start_point, self._end_point)` and `self._color` verbatim, all of
which are `Optional`. -/
structure R where
  points : Option Pt × Option Pt
  color : Option Color
  deriving DecidableEq, Repr

/-- The state of a `Rectangle` instance. -/
structure State where
  /-- `self._rectangles`: the committed history. -/
  rectangles : List R
  /-- `self._start_point`. -/
  start_point : Option Pt
  /-- `self._end_point`. -/
  end_point : Option Pt
  /-- `self._color`: `None` until the first press. -/
  color : Option Color
  /-- `self._context` on `self.surface`. -/
  ctx : Ctx
  deriving DecidableEq, Repr

/-- `Rectangle.__init__`. -/
def init : State :=
  { rectangles := [], start_point := none, end_point := none, color := none, ctx := Ctx.init }

/-- `Rectangle._draw_rectangle(start_point, end_point, color)`:
`set_source_rgba(*color)` (raises on `None`), then the signed width/height
(subscripting `None` raises), then `rectangle(*start_point, w, h); stroke()`. -/
def draw_rectangle (start_point end_point : Option Pt) (color : Option Color)
    (ctx : Ctx) : Except String Ctx := do
  let c ← starStar color
  let ctx := ctx.setSourceRgba c
  let e ← sub0 end_point
  let st ← sub0 start_point
  let width := e.1 - st.1
  let height := e.2 - st.2
  .pure ((ctx.rectanglePath st width height).stroke)

/-- `Rectangle._draw`: clear the surface, draw every committed rectangle in
order, then—only when `self._start_point` is truthy—draw the transient one. -/
def draw (s : State) : Except String State := do
  let ctx := s.ctx.clearSurface
  let ctx ← s.rectangles.foldlM (fun ctx r => draw_rectangle r.points.1 r.points.2 r.color ctx) ctx
  let ctx ← if s.start_point.isSome then draw_rectangle s.start_point s.end_point s.color ctx
            else .pure ctx
  .pure { s with ctx := ctx }

/-- `Rectangle.on_mouse_press(event, color)`: store the colour and set both
transient points to the event point. No redraw is performed. -/
def on_mouse_press (color : Color) (p : Pt) (s : State) : State :=
  { s with color := some color, start_point := some p, end_point := some p }

/-- `Rectangle.on_mouse_release(event)`: set the end point, commit
`R((start, end), color)`, clear the transient points, redraw. -/
def on_mouse_release (p : Pt) (s : State) : Except String State :=
  draw { s with
    rectangles := s.rectangles ++ [⟨(s.start_point, some p), s.color⟩]
    start_point := none
    end_point := none }

/-- `Rectangle.on_mouse_move(event)`: update the end point and redraw. -/
def on_mouse_move (p : Pt) (s : State) : Except String State :=
  draw { s with end_point := some p }

/-- `Rectangle.undo()`: when the history is non-empty, pop the last
rectangle and redraw; otherwise do nothing. -/
def undo (s : State) : Except String State :=
  if s.rectangles.length > 0 then draw { s with rectangles := s.rectangles.dropLast }
  else .pure s

end Rectangle

/-! ## Crop (src/src/scrann/tools/crop.py) -/

/-- An image surface, abstracted as its extent plus its pixel content at
each device coordinate. -/
structure Surface where
  width : ℚ
  height : ℚ
  pixel : ℚ → ℚ → Color

/-- `cairo.Surface.create_for_rectangle(x, y, w, h)`: a sub-surface view of
extent `w×h` whose pixel `(i, j)` is the target's pixel `(x + i, y + j)`. -/
def Surface.create_for_rectangle (s : Surface) (x y w h : ℚ) : Surface :=
  { width := w, height := h, pixel := fun i j => s.pixel (x + i) (y + j) }

namespace Crop

/-- The state of a `Crop` instance. -/
structure State where
  /-- `self._start_point`. -/
  start_point : Option Pt
  /-- `self._end_point`. -/
  end_point : Option Pt
  /-- `self._fill_color = (0, 0, 0, 0.5)`. -/
  fill_color : Color
  /-- `self._context` on `self.surface`. -/
  ctx : Ctx
  deriving DecidableEq, Repr

/-- `Crop.__init__`. -/
def init : State :=
  { start_point := none, end_point := none, fill_color := (0, 0, 0, 1/2), ctx := Ctx.init }

/-- `Crop._draw`: return early unless both transient points are truthy;
otherwise clear, `set_source_rgba(*fill_color); fill()` (the current path is
whatever it was — `fill` with an empty path deposits nothing), then add the
selection rectangle to the path, set source `(0, 0, 0, 0.8)` and `fill()`. -/
def draw (s : State) : State :=
  match s.start_point, s.end_point with
  | some st, some e =>
      let ctx := s.ctx.clearSurface
      let ctx := (ctx.setSourceRgba s.fill_color).fill
      let width := e.1 - st.1
      let height := e.2 - st.2
      let ctx := ((ctx.rectanglePath st width height).setSourceRgba (0, 0, 0, 4/5)).fill
      { s with ctx := ctx }
  | _, _ => s

/-- `Crop.on_mouse_press(event, color)`: set both transient points to the
event point (the colour argument is unused) and clear the surface. -/
def on_mouse_press (p : Pt) (s : State) : State :=
  { s with start_point := some p, end_point := some p, ctx := s.ctx.clearSurface }

/-- `Crop.on_mouse_release(event)`: set the end point and clear the surface. -/
def on_mouse_release (p : Pt) (s : State) : State :=
  { s with end_point := some p, ctx := s.ctx.clearSurface }

/-- `Crop.on_mouse_move(event)`: update the end point and redraw. -/
def on_mouse_move (p : Pt) (s : State) : State :=
  draw { s with end_point := some p }

/-- `Crop.undo()`: `pass` — a no-op in every state. -/
def undo (s : State) : State := s

/-- `Crop.update_surface(context)`: map both transient points through
`context.user_to_device` (the identity: `window.py` never installs a
transformation on `self._image_context`), take the absolute width and
height, and return `context.get_target().create_for_rectangle(*start, w, h)`
— a sub-view anchored at the start point. Subscripting a `None` point
raises `TypeError`. -/
def update_surface (image : Surface) (s : State) : Except String Surface := do
  let st ← sub0 s.start_point
  let e ← sub0 s.end_point
  let height := |e.2 - st.2|
  let width := |e.1 - st.1|
  .pure (image.create_for_rectangle st.1 st.2 width height)

end Crop

/-! ## Session controller (src/src/scrann/window.py, class Main) -/

/-- The tool classes registered in `Main.__init__`:
`[Pen(...), Rectangle(...), Crop(...)]`. -/
inductive ToolKind where
  | pen
  | rectangle
  | crop
  deriving DecidableEq, Repr

namespace Main

/-- The session-controller state: the base image surface targeted by
`self._image_context`, the three tool instances, the active tool
(`self._current_tool`, `None` until a toolbar button is toggled), and the
session colour `self._color`. -/
structure State where
  image : Surface
  pen : Pen.State
  rect : Rectangle.State
  crop : Crop.State
  current_tool : Option ToolKind
  color : Color

/-- `Main._update_image_surface(surface)`: re-derive the window size from
the new surface and point `self._image_context` at it (the base-image
replacement; note the method does not update `self._image_rect`). -/
def update_image_surface (surface : Surface) (s : State) : State :=
  { s with image := surface }

/-- Attribute access on `self._current_tool` when it is `None` raises
`AttributeError`. -/
def currentTool (s : State) : Except String ToolKind :=
  match s.current_tool with
  | none => .error "AttributeError: NoneType object has no attribute"
  | some tk => .pure tk

/-- `Main.on_mouse_press(widget, event)`:
`self._current_tool.on_mouse_press(event, self._color)`. -/
def on_mouse_press (p : Pt) (s : State) : Except String State := do
  match ← currentTool s with
  | .pen => .pure { s with pen := Pen.on_mouse_press s.color s.pen }
  | .rectangle => .pure { s with rect := Rectangle.on_mouse_press s.color p s.rect }
  | .crop => .pure { s with crop := Crop.on_mouse_press p s.crop }

/-- `Main.on_mouse_move(widget, event)`:
`self._current_tool.on_mouse_move(event)`. -/
def on_mouse_move (p : Pt) (s : State) : Except String State := do
  match ← currentTool s with
  | .pen => do let pen ← Pen.on_mouse_move p s.pen; .pure { s with pen := pen }
  | .rectangle => do let rect ← Rectangle.on_mouse_move p s.rect; .pure { s with rect := rect }
  | .crop => .pure { s with crop := Crop.on_mouse_move p s.crop }

/-- `Main.on_mouse_release(widget, event)`: delegate to the active tool's
`on_mouse_release`, then unconditionally evaluate
`self._current_tool.update_surface(self._image_context)` — only `Crop`
defines `update_surface`, so with `Pen` or `Rectangle` active the attribute
lookup raises `AttributeError`; with `Crop` active the returned sub-surface
replaces the base image via `_update_image_surface`. -/
def on_mouse_release (p : Pt) (s : State) : Except String State := do
  match ← currentTool s with
  | .pen =>
      let _pen := Pen.on_mouse_release s.pen
      .error "AttributeError: Pen object has no attribute update_surface"
  | .rectangle => do
      let _rect ← Rectangle.on_mouse_release p s.rect
      .error "AttributeError: Rectangle object has no attribute update_surface"
  | .crop => do
      let crop := Crop.on_mouse_release p s.crop
      let newSurface ← Crop.update_surface s.image crop
      .pure (update_image_surface newSurface { s with crop := crop })

end Main

/-! ## Capture retry (src/scrann/dbus.py) -/

/-- The text of the per-failure notification in `retry`. -/
def tryAgainMsg : String := "Selecting area failed, try again"

/-- The text of the giving-up notification in `retry`. -/
def giveUpMsg (maxTries : Nat) : String :=
  "Selecting area failed " ++ toString maxTries ++ " times, giving up"

/-- The observable outcome of `retry`: the returned value (`ok none` models
Python's implicit `return None` when the loop is never entered), the
notifications issued in order, and how many times `fn` was invoked. -/
structure RetryResult (α : Type) where
  result : Except Unit (Option α)
  notifications : List String
  calls : Nat
  deriving Repr

/-- The `while num_try < max_tries` loop of `dbus.retry`, with the attempt
outcomes given as a function from call index to result. `remaining` is the
loop-variant `max_tries - num_try`. -/
def retryAux {α : Type} (fn : Nat → Except Unit α) (maxTries : Nat) :
    (remaining : Nat) → (numTry : Nat) → (notifs : List String) → (calls : Nat) → RetryResult α
  | 0, _, notifs, calls => ⟨.ok none, notifs, calls⟩
  | remaining + 1, numTry, notifs, calls =>
      match fn calls with
      | .ok a => ⟨.ok (some a), notifs, calls + 1⟩
      | .error e =>
          let notifs := notifs ++ [tryAgainMsg]
          let numTry := numTry + 1
          if numTry = maxTries then ⟨.error e, notifs ++ [giveUpMsg maxTries], calls + 1⟩
          else retryAux fn maxTries remaining numTry notifs (calls + 1)

/-- `dbus.retry(fn, max_tries)`. -/
def retry {α : Type} (fn : Nat → Except Unit α) (maxTries : Nat) : RetryResult α :=
  retryAux fn maxTries maxTries 0 [] 0

/-- `dbus._get_screenshot`: `retry(_take_screenshot, 3)`. -/
def get_screenshot (fn : Nat → Except Unit String) : RetryResult String :=
  retry fn 3

/-! ## Event sequences and the session state machine -/

/-- One input event delivered to a tool. A press carries the session colour
sampled by `Main.on_mouse_press` along with the event point. -/
inductive Ev where
  | press (c : Color) (p : Pt)
  | move (p : Pt)
  | release (p : Pt)
  | undo
  deriving DecidableEq, Repr

/-- One transition of the session controller's state machine (§4.4 of the
spec: Idle→Drawing on press, Drawing→Drawing on move, Drawing→Idle on
release; undo is an Idle-only toolbar action). The boolean is the Drawing
flag; `none` means the event is not deliverable in that state. -/
def dfaStep : Bool → Ev → Option Bool
  | false, .press _ _ => some true
  | false, .undo => some false
  | true, .move _ => some true
  | true, .release _ => some false
  | _, _ => none

/-- Acceptance of an event list by the session state machine. -/
def wfFrom (b : Bool) : List Ev → Bool
  | [] => true
  | e :: evs =>
      match dfaStep b e with
      | some b' => wfFrom b' evs
      | none => false

/-- A well-formed event list: accepted starting from Idle. -/
def WFEvents (evs : List Ev) : Prop := wfFrom false evs = true

/-- Whether an event is a press. -/
def isPressEv : Ev → Bool
  | .press _ _ => true
  | _ => false

/-- Whether the last event of a list is a press. -/
def lastIsPress : List Ev → Bool
  | [] => false
  | e :: evs => if evs.isEmpty then isPressEv e else lastIsPress evs

namespace Pen

/-- Dispatch one event to a `Pen` instance. -/
def step (s : State) : Ev → Except String State
  | .press c _ => .pure (on_mouse_press c s)
  | .move p => on_mouse_move p s
  | .release _ => .pure (on_mouse_release s)
  | .undo => undo s

/-- Run an event list on a `Pen` instance from a given state. -/
def runFrom (s : State) (evs : List Ev) : Except String State :=
  evs.foldlM step s

/-- Run an event list on a freshly constructed `Pen`. -/
def run (evs : List Ev) : Except String State :=
  runFrom init evs

end Pen

namespace Rectangle

/-- Dispatch one event to a `Rectangle` instance. -/
def step (s : State) : Ev → Except String State
  | .press c p => .pure (on_mouse_press c p s)
  | .move p => on_mouse_move p s
  | .release p => on_mouse_release p s
  | .undo => undo s

/-- Run an event list on a `Rectangle` instance from a given state. -/
def runFrom (s : State) (evs : List Ev) : Except String State :=
  evs.foldlM step s

/-- Run an event list on a freshly constructed `Rectangle`. -/
def run (evs : List Ev) : Except String State :=
  runFrom init evs

end Rectangle

/-! ## Deterministic full re-render (the spec's reference renderer) -/

/-- The colour actually passed to `set_source_rgba`; the default is only a
placeholder for the `None` case, which never draws in a well-formed run. -/
def strokeColor (c : Option Color) : Color := c.getD (0, 0, 0, 1)

/-- The primitives of one committed pen stroke at line width `lw`. -/
def penStrokePrims (lw : ℚ) (st : Pen.Stroke) : List Prim :=
  pairSegs (strokeColor st.color) lw st.points

/-- The primitives of the committed pen history at line width `lw`. -/
def penHistPrims (lw : ℚ) (paths : List Pen.Stroke) : List Prim :=
  paths.flatMap (penStrokePrims lw)

/-- The deterministic full re-render of a pen state: committed history in
insertion order, then the in-progress path, at the context's line width. -/
def penSurfaceSpec (s : Pen.State) : List Prim :=
  penHistPrims s.ctx.lineWidth s.paths ++ pairSegs (strokeColor s.color) s.ctx.lineWidth s.path

/-- The primitives of one committed rectangle at line width `lw` (empty in
the `None` cases, which never draw in a well-formed run). -/
def rectPrims (lw : ℚ) (r : Rectangle.R) : List Prim :=
  match r.points.1, r.points.2, r.color with
  | some st, some e, some c => [.rectStroke st (e.1 - st.1) (e.2 - st.2) c lw]
  | _, _, _ => []

/-- The primitives of the committed rectangle history at line width `lw`. -/
def rectHistPrims (lw : ℚ) (rects : List Rectangle.R) : List Prim :=
  rects.flatMap (rectPrims lw)

/-- The deterministic full re-render of a rectangle state: committed history
in insertion order, then the transient rectangle when a start point exists. -/
def rectSurfaceSpec (s : Rectangle.State) : List Prim :=
  rectHistPrims s.ctx.lineWidth s.rectangles ++
    (if s.start_point.isSome then rectPrims s.ctx.lineWidth ⟨(s.start_point, s.end_point), s.color⟩
     else [])

/-! ## Pixel rendering of fill primitives -/

/-- Membership of a device coordinate in an axis-aligned rectangle with
origin `p` and signed extent `w×h` (cairo fills the same region for either
sign under the default nonzero winding rule). -/
def inRectQ (p : Pt) (w h : ℚ) (x y : ℚ) : Bool :=
  decide (min p.1 (p.1 + w) ≤ x ∧ x < max p.1 (p.1 + w) ∧
          min p.2 (p.2 + h) ≤ y ∧ y < max p.2 (p.2 + h))

/-- cairo's OVER compositing of a non-premultiplied RGBA source over a
destination. -/
def overC (src dst : Color) : Color :=
  let sa := src.2.2.2
  let da := dst.2.2.2
  let a := sa + da * (1 - sa)
  if a = 0 then (0, 0, 0, 0)
  else ((src.1 * sa + dst.1 * da * (1 - sa)) / a,
        (src.2.1 * sa + dst.2.1 * da * (1 - sa)) / a,
        (src.2.2.1 * sa + dst.2.2.1 * da * (1 - sa)) / a,
        a)

/-- Whether a primitive list consists of fill primitives only (the rendering
below is meaningful exactly for such lists). -/
def fillsOnly (prims : List Prim) : Bool :=
  prims.all fun pr => match pr with
    | .rectFill _ _ _ _ => true
    | _ => false

/-- The colour at a device coordinate of a surface holding the given fill
primitives, composited in order over an initially transparent surface.
Stroke primitives are ignored (see `fillsOnly`). -/
def renderPixel (prims : List Prim) (x y : ℚ) : Color :=
  prims.foldl
    (fun dst pr =>
      match pr with
      | .rectFill p w h c => if inRectQ p w h x y then overC c dst else dst
      | _ => dst)
    (0, 0, 0, 0)

/-! ## Observation helpers on fallible results -/

/-- The committed point lists of a pen run's outcome. -/
def penPathsOf (e : Except String Pen.State) : Option (List (List Pt)) :=
  e.toOption.map fun s => s.paths.map (·.points)

/-- The surface primitives of a pen run's outcome. -/
def penPrimsOf (e : Except String Pen.State) : Option (List Prim) :=
  e.toOption.map fun s => s.ctx.prims

/-- The width of a fallibly produced surface. -/
def surfWidthOf (e : Except String Surface) : Option ℚ :=
  e.toOption.map Surface.width

/-- The height of a fallibly produced surface. -/
def surfHeightOf (e : Except String Surface) : Option ℚ :=
  e.toOption.map Surface.height

/-- A pixel of a fallibly produced surface. -/
def surfPixelOf (e : Except String Surface) (x y : ℚ) : Option Color :=
  e.toOption.map fun s => s.pixel x y

/-- The base-image width of a fallibly produced session state. -/
def imageWidthOf (e : Except String Main.State) : Option ℚ :=
  e.toOption.map fun s => s.image.width

/-- The base-image height of a fallibly produced session state. -/
def imageHeightOf (e : Except String Main.State) : Option ℚ :=
  e.toOption.map fun s => s.image.height

/-- A base-image pixel of a fallibly produced session state. -/
def imagePixelOf (e : Except String Main.State) (x y : ℚ) : Option Color :=
  e.toOption.map fun s => s.image.pixel x y

/-! ## Auxiliary predicates for the invariant proofs -/

/-- A subpath that strokes to nothing: a polyline of at most one point
(butt caps draw nothing for a degenerate subpath). -/
def degenSub : SubP → Bool
  | .pts [] => true
  | .pts [_] => true
  | _ => false

/-- A current path all of whose subpaths stroke to nothing — the only
residue `Pen._draw_path` can leave behind (its final `move_to`). -/
def degenPath (path : List SubP) : Bool := path.all degenSub

/-- Every field of a committed rectangle that `_draw_rectangle` unpacks or
subscripts is present (true of every rectangle committed after a press). -/
def rectOk (r : Rectangle.R) : Prop :=
  r.points.1.isSome = true ∧ r.points.2.isSome = true ∧ r.color.isSome = true

/-- All committed rectangles are drawable. -/
def rectsOk (rects : List Rectangle.R) : Prop := ∀ r ∈ rects, rectOk r

/-! ## Statements taken from the spec's words (for refinement comparison) -/

/-- Modelled from the spec: the crop sub-view "spanned by" the two
device-space corners `(x1, y1)` and `(x2, y2)` — extent `|x2-x1| × |y2-y1|`
with origin at the corner-wise minimum, read off the pre-crop composite. -/
def spannedSubRect (img : Surface) (x1 y1 x2 y2 : ℚ) : Surface :=
  { width := |x2 - x1|
    height := |y2 - y1|
    pixel := fun i j => img.pixel (min x1 x2 + i) (min y1 y2 + j) }

/-- Modelled from the spec: the in-progress Crop overlay renders a
"full-surface semi-transparent fill plus a fully-opaque cutout rectangle":
every surface pixel outside the selection carries the semi-transparent fill
colour `(0, 0, 0, 0.5)`, and every pixel inside the selection is fully
opaque. Stated over the deposited primitives of the crop surface for a
selection from `st` to `en` on a `w × h` surface. -/
def cropOverlayClaim (prims : List Prim) (st en : Pt) (w h : ℚ) : Prop :=
  (∀ x y, 0 ≤ x → x < w → 0 ≤ y → y < h →
    inRectQ st (en.1 - st.1) (en.2 - st.2) x y = false →
    renderPixel prims x y = (0, 0, 0, 1/2)) ∧
  (∀ x y, 0 ≤ x → x < w → 0 ≤ y → y < h →
    inRectQ st (en.1 - st.1) (en.2 - st.2) x y = true →
    (renderPixel prims x y).2.2.2 = 1)

/-! ## Concrete fixtures for witnesses and counterexamples -/

/-- A concrete 20×20 base image whose pixel at `(x, y)` encodes its own
coordinates, so distinct source positions are distinguishable. -/
def testImg : Surface :=
  { width := 20, height := 20, pixel := fun x y => (x, y, 0, 1) }

/-- An opaque red, the session's initial colour (`window.py`:
`self._color = (1, 0, 0, 1)`). -/
def red : Color := (1, 0, 0, 1)

/-- The inductive invariant of a `Pen` instance along a well-formed event
run; `b` is the session's Drawing flag. Its first conjunct is the re-render
property: the surface holds exactly the deterministic full re-render of
(committed history ++ in-progress path). -/
def PenInv (b : Bool) (s : Pen.State) : Prop :=
  s.ctx.prims = penSurfaceSpec s ∧
  (∀ p ∈ s.paths, p.color.isSome = true) ∧
  degenPath s.ctx.path = true ∧
  s.line_width = 3 ∧
  (b = false → s.path = []) ∧
  (b = true → s.color.isSome = true) ∧
  (s.color = none → s.paths = [] ∧ s.path = [] ∧ s.ctx.lineWidth = 2) ∧
  (s.color.isSome = true → s.ctx.lineWidth = 3)

/-- The inductive invariant of a `Rectangle` instance along a well-formed
event run; `b` is the Drawing flag and `jp` records whether the run ended
in a press (after a press—and only then—the transient rectangle exists but
has not been drawn, so the surface shows the committed history only). -/
def RectInv (b jp : Bool) (s : Rectangle.State) : Prop :=
  s.ctx.prims =
    (if jp then rectHistPrims s.ctx.lineWidth s.rectangles else rectSurfaceSpec s) ∧
  rectsOk s.rectangles ∧
  s.ctx.path = [] ∧
  (b = false → s.start_point = none) ∧
  (b = true →
    s.start_point.isSome = true ∧ s.end_point.isSome = true ∧ s.color.isSome = true) ∧
  (jp = true → b = true)

end Scrann

namespace Scrann

/-- Bind on a successful `Except` computation. -/
theorem ok_bind {α β : Type} (a : α) (f : α → Except String β) :
    (Except.ok a >>= f) = f a := rfl

/-- `sub0` on a present value. -/
theorem sub0_some {α : Type} (a : α) : sub0 (some a) = .ok a := rfl

/-- `starStar` on a present value. -/
theorem starStar_some {α : Type} (a : α) : starStar (some a) = .ok a := rfl

/-- C2 (counterexample): running press (10,10), move (20,10), move (20,20),
release on a fresh Pen does NOT leave a stroke with points
[(10,10),(20,10),(20,20)] — `on_mouse_press` records no point, so the press
position is missing from the committed stroke. -/
theorem pen_scenario_counterexample :
    penPathsOf (Pen.run [.press red (10, 10), .move (20, 10), .move (20, 20),
      .release (20, 20)]) ≠ some [[(10, 10), (20, 10), (20, 20)]] := by
  decide

/-- C2 (amended): the same event sequence leaves exactly one committed
stroke with points [(20,10),(20,20)] (only the moved-to points), and the
rendered surface shows exactly one line segment, from (20,10) to (20,20),
in the pressed colour at width 3. -/
theorem pen_scenario_amended :
    penPathsOf (Pen.run [.press red (10, 10), .move (20, 10), .move (20, 20),
      .release (20, 20)]) = some [[(20, 10), (20, 20)]] ∧
    penPrimsOf (Pen.run [.press red (10, 10), .move (20, 10), .move (20, 20),
      .release (20, 20)]) = some [.line (20, 10) (20, 20) red 3] := by
  exact ⟨rfl, rfl⟩

/-- C6 (counterexample): calling `Pen.on_mouse_move` with no prior press
faults: `_draw_path` executes `set_source_rgba(*self._color)` with
`self._color` still `None`, raising `TypeError` — the Pen does not guard
the missing transient state. -/
theorem on_move_without_press_counterexample :
    Pen.on_mouse_move (5, 5) Pen.init =
      .error "TypeError: argument after * must be an iterable, not NoneType" := by
  rfl

/-- C6 (amended): with no prior press, `on_mouse_move` faults for Pen
(TypeError on the unset colour), while Rectangle completes without fault
(its `_draw` guard skips the transient rectangle, leaving only the end
point updated) and Crop is a complete rendering no-op (its `_draw` returns
early on the missing start point). -/
theorem on_move_without_press_amended (p : Pt) :
    isErr (Pen.on_mouse_move p Pen.init) = true ∧
    Rectangle.on_mouse_move p Rectangle.init =
      .ok { Rectangle.init with end_point := some p } ∧
    Crop.on_mouse_move p Crop.init = { Crop.init with end_point := some p } := by
  exact ⟨rfl, rfl, rfl⟩

/-- C8: `undo()` on an empty committed history is a silent no-op returning
the state unchanged for Pen and Rectangle, and `Crop.undo` is a no-op in
every state. -/
theorem undo_empty_noop (s : Pen.State) (r : Rectangle.State) (c : Crop.State)
    (hs : s.paths = []) (hr : r.rectangles = []) :
    Pen.undo s = .ok s ∧ Rectangle.undo r = .ok r ∧ Crop.undo c = c := by
  refine ⟨?_, ?_, rfl⟩
  · simp [Pen.undo, hs, Except.pure]
  · simp [Rectangle.undo, hr, Except.pure]

/-- C8 (witness): the no-op undos evaluated on the freshly constructed
tools. -/
theorem undo_empty_noop_witness :
    Pen.init.paths = [] ∧ Rectangle.init.rectangles = [] ∧
    (Pen.undo Pen.init = .ok Pen.init ∧ Rectangle.undo Rectangle.init = .ok Rectangle.init ∧
      Crop.undo Crop.init = Crop.init) :=
  ⟨rfl, rfl, undo_empty_noop Pen.init Rectangle.init Crop.init rfl rfl⟩

/-- C10: `Pen.on_mouse_release` always appends a stroke holding the
in-progress points; in particular a press immediately followed by release
commits a zero-point stroke, which deposits no primitive on the surface
(its full re-render is empty) but increases the history length to one and
is removed by the next `undo`. -/
theorem pen_release_always_commits :
    (∀ s : Pen.State,
      (Pen.on_mouse_release s).paths = s.paths ++ [⟨s.path, s.color⟩] ∧
      (Pen.on_mouse_release s).path = []) ∧
    (Pen.on_mouse_release (Pen.on_mouse_press red Pen.init)).paths = [⟨[], some red⟩] ∧
    (Pen.on_mouse_release (Pen.on_mouse_press red Pen.init)).ctx.prims = [] ∧
    penSurfaceSpec (Pen.on_mouse_release (Pen.on_mouse_press red Pen.init)) = [] ∧
    (∃ s2, Pen.undo (Pen.on_mouse_release (Pen.on_mouse_press red Pen.init)) = .ok s2 ∧
      s2.paths = []) := by
  exact ⟨fun s => ⟨rfl, rfl⟩, rfl, rfl, rfl, ⟨_, rfl, rfl⟩⟩

/-- Full unfolding of the screenshot retry loop over the three attempts. -/
theorem get_screenshot_unfold (fn : Nat → Except Unit String) :
    get_screenshot fn =
      (match fn 0 with
      | .ok a => (⟨.ok (some a), [], 1⟩ : RetryResult String)
      | .error _ =>
        match fn 1 with
        | .ok a => ⟨.ok (some a), [tryAgainMsg], 2⟩
        | .error _ =>
          match fn 2 with
          | .ok a => ⟨.ok (some a), [tryAgainMsg, tryAgainMsg], 3⟩
          | .error e =>
              ⟨.error e, [tryAgainMsg, tryAgainMsg, tryAgainMsg, giveUpMsg 3], 3⟩) := by
  cases h0 : fn 0 <;> cases h1 : fn 1 <;> cases h2 : fn 2 <;>
    simp [get_screenshot, retry, retryAux, h0, h1, h2]

/-- C9: the screenshot capture is invoked at most 3 times; every failed
attempt issues a try-again notification; when all 3 attempts fail, a final
giving-up notification is issued and the last failure is re-raised; an
attempt that succeeds ends the loop with the captured value and no further
calls. -/
theorem capture_retry (fn : Nat → Except Unit String) :
    (get_screenshot fn).calls ≤ 3 ∧
    (isErr (fn 0) = true → isErr (fn 1) = true → isErr (fn 2) = true →
      get_screenshot fn =
        ⟨.error (), [tryAgainMsg, tryAgainMsg, tryAgainMsg, giveUpMsg 3], 3⟩) ∧
    (∀ u, fn 0 = .ok u → get_screenshot fn = ⟨.ok (some u), [], 1⟩) ∧
    (∀ u, isErr (fn 0) = true → fn 1 = .ok u →
      get_screenshot fn = ⟨.ok (some u), [tryAgainMsg], 2⟩) ∧
    (∀ u, isErr (fn 0) = true → isErr (fn 1) = true → fn 2 = .ok u →
      get_screenshot fn = ⟨.ok (some u), [tryAgainMsg, tryAgainMsg], 3⟩) := by
  rw [get_screenshot_unfold fn]
  cases h0 : fn 0 <;> cases h1 : fn 1 <;> cases h2 : fn 2 <;>
    simp [isErr, h0, h1, h2]

/-- C9 (witness): a capture that fails on every attempt exhausts the three
tries, issues four notifications and re-raises. -/
theorem capture_retry_witness :
    isErr ((fun _ => (Except.error () : Except Unit String)) 0) = true ∧
    get_screenshot (fun _ => .error ()) =
      ⟨.error (), [tryAgainMsg, tryAgainMsg, tryAgainMsg, giveUpMsg 3], 3⟩ :=
  ⟨rfl, (capture_retry (fun _ => .error ())).2.1 rfl rfl rfl⟩

/-- C3 (counterexample): with start corner (10,10) and end corner (0,0) the
surface returned by `Crop.update_surface` reads the base image at the START
corner, not at the minimum corner spanned by the selection — its pixel
(0,0) is the base pixel (10,10), not (0,0). -/
theorem crop_subview_counterexample :
    surfPixelOf (Crop.update_surface testImg
        (Crop.on_mouse_move (0, 0) (Crop.on_mouse_press (10, 10) Crop.init))) 0 0 ≠
      some ((spannedSubRect testImg 10 10 0 0).pixel 0 0) := by
  have hst : (Crop.on_mouse_move (0, 0) (Crop.on_mouse_press (10, 10) Crop.init)).start_point =
      some (10, 10) := rfl
  have hen : (Crop.on_mouse_move (0, 0) (Crop.on_mouse_press (10, 10) Crop.init)).end_point =
      some (0, 0) := rfl
  unfold Crop.update_surface
  rw [hst, hen]
  simp only [sub0_some, ok_bind, Except.pure, surfPixelOf, Except.toOption, Option.map,
    Surface.create_for_rectangle, spannedSubRect, testImg]
  norm_num

/-- C3 (amended): `Crop.update_surface` returns a view of extent
|x2-x1| × |y2-y1| whose pixel content is the base image read from origin
(x1, y1) — the start corner; this coincides with the sub-rectangle spanned
by the two corners exactly when x1 ≤ x2 and y1 ≤ y2. -/
theorem crop_subview_amended (img : Surface) (s : Crop.State) (x1 y1 x2 y2 : ℚ)
    (h1 : s.start_point = some (x1, y1)) (h2 : s.end_point = some (x2, y2)) :
    ∃ v, Crop.update_surface img s = .ok v ∧
      v.width = |x2 - x1| ∧ v.height = |y2 - y1| ∧
      (∀ i j, v.pixel i j = img.pixel (x1 + i) (y1 + j)) ∧
      (x1 ≤ x2 → y1 ≤ y2 → ∀ i j,
        v.pixel i j = (spannedSubRect img x1 y1 x2 y2).pixel i j) := by
  refine ⟨img.create_for_rectangle x1 y1 |x2 - x1| |y2 - y1|, ?_, rfl, rfl,
    fun i j => rfl, ?_⟩
  · unfold Crop.update_surface
    rw [h1, h2]
    simp only [sub0_some, ok_bind, Except.pure]
  · intro hx hy i j
    simp [Surface.create_for_rectangle, spannedSubRect, min_eq_left hx, min_eq_left hy]

/-- C3 (witness): the amended statement evaluated on the concrete base
image for a selection from (2,3) to (7,9). -/
theorem crop_subview_amended_witness :
    ∃ v, Crop.update_surface testImg
        (Crop.on_mouse_move (7, 9) (Crop.on_mouse_press (2, 3) Crop.init)) = .ok v ∧
      v.width = |(7 : ℚ) - 2| ∧ v.height = |(9 : ℚ) - 3| ∧
      (∀ i j, v.pixel i j = testImg.pixel (2 + i) (3 + j)) ∧
      ((2 : ℚ) ≤ 7 → (3 : ℚ) ≤ 9 → ∀ i j,
        v.pixel i j = (spannedSubRect testImg 2 3 7 9).pixel i j) :=
  crop_subview_amended testImg
    (Crop.on_mouse_move (7, 9) (Crop.on_mouse_press (2, 3) Crop.init)) 2 3 7 9 rfl rfl

/-- C4 (counterexample): for the in-progress selection from (1,1) to (3,3)
on a 5×5 surface, the crop overlay does NOT dim the outside: the pixel
(0,0), outside the selection, is fully transparent, because the
full-surface `fill()` is executed with an empty current path and so paints
nothing. -/
theorem crop_overlay_counterexample :
    ¬ cropOverlayClaim
        (Crop.on_mouse_move (3, 3) (Crop.on_mouse_press (1, 1) Crop.init)).ctx.prims
        (1, 1) (3, 3) 5 5 := by
  intro h
  have hprims : (Crop.on_mouse_move (3, 3) (Crop.on_mouse_press (1, 1) Crop.init)).ctx.prims =
      [Prim.rectFill (1, 1) ((3, 3).1 - (1, 1).1) ((3, 3).2 - (1, 1).2) (0, 0, 0, 4/5)] := rfl
  have hout : inRectQ (1, 1) ((3, 3).1 - (1, 1).1) ((3, 3).2 - (1, 1).2) 0 0 = false := by
    simp only [inRectQ, decide_eq_false_iff_not]
    norm_num
  have h0 := h.1 0 0 (by norm_num) (by norm_num) (by norm_num) (by norm_num) hout
  rw [hprims] at h0
  simp only [renderPixel, List.foldl, hout, Bool.false_eq_true, ite_false] at h0
  exact absurd h0 (by norm_num [Prod.ext_iff])

/-- C4 (amended): while a crop selection is in progress the tool's surface
holds exactly one primitive — the selection rectangle filled with
80%-opaque black. The intended full-surface semi-transparent fill deposits
nothing (no current path), so everything outside the selection stays fully
transparent (undimmed) and the selection itself is darkened, not opaque. -/
theorem crop_overlay_amended (sx sy ex ey : ℚ) :
    (Crop.on_mouse_move (ex, ey) (Crop.on_mouse_press (sx, sy) Crop.init)).ctx.prims =
      [.rectFill (sx, sy) (ex - sx) (ey - sy) (0, 0, 0, 4/5)] ∧
    fillsOnly
      (Crop.on_mouse_move (ex, ey) (Crop.on_mouse_press (sx, sy) Crop.init)).ctx.prims =
      true ∧
    (∀ x y,
      renderPixel
        (Crop.on_mouse_move (ex, ey) (Crop.on_mouse_press (sx, sy) Crop.init)).ctx.prims
        x y =
      if inRectQ (sx, sy) (ex - sx) (ey - sy) x y then (0, 0, 0, 4/5) else (0, 0, 0, 0)) := by
  refine ⟨rfl, rfl, fun x y => ?_⟩
  have hp : (Crop.on_mouse_move (ex, ey) (Crop.on_mouse_press (sx, sy) Crop.init)).ctx.prims =
      [Prim.rectFill (sx, sy) (ex - sx) (ey - sy) (0, 0, 0, 4/5)] := rfl
  rw [hp]
  cases hb : inRectQ (sx, sy) (ex - sx) (ey - sy) x y
  · simp [renderPixel, hb]
  · simp only [renderPixel, List.foldl, hb, ite_true]
    norm_num [overC, Prod.ext_iff]

/-- C1: `Main.on_mouse_release` delegates to the active tool and then
unconditionally looks up `update_surface` on it. With Pen or Rectangle
active the lookup raises AttributeError; with Crop active the base image is
replaced by the crop sub-view (here |5-2| × |5-3| anchored at the start
corner (2,3)), into which the release point was first delivered. -/
theorem main_release_dispatch :
    Main.on_mouse_release (5, 5)
      { image := testImg, pen := Pen.init, rect := Rectangle.init,
        crop := Crop.on_mouse_press (2, 3) Crop.init,
        current_tool := some .pen, color := red } =
      .error "AttributeError: Pen object has no attribute update_surface" ∧
    Main.on_mouse_release (5, 5)
      { image := testImg, pen := Pen.init,
        rect := Rectangle.on_mouse_press red (0, 0) Rectangle.init,
        crop := Crop.on_mouse_press (2, 3) Crop.init,
        current_tool := some .rectangle, color := red } =
      .error "AttributeError: Rectangle object has no attribute update_surface" ∧
    imageWidthOf (Main.on_mouse_release (5, 5)
      { image := testImg, pen := Pen.init, rect := Rectangle.init,
        crop := Crop.on_mouse_press (2, 3) Crop.init,
        current_tool := some .crop, color := red }) = some 3 ∧
    imageHeightOf (Main.on_mouse_release (5, 5)
      { image := testImg, pen := Pen.init, rect := Rectangle.init,
        crop := Crop.on_mouse_press (2, 3) Crop.init,
        current_tool := some .crop, color := red }) = some 2 ∧
    imagePixelOf (Main.on_mouse_release (5, 5)
      { image := testImg, pen := Pen.init, rect := Rectangle.init,
        crop := Crop.on_mouse_press (2, 3) Crop.init,
        current_tool := some .crop, color := red }) 0 0 = some (2, 3, 0, 1) ∧
    (Main.on_mouse_release (5, 5)
      { image := testImg, pen := Pen.init, rect := Rectangle.init,
        crop := Crop.on_mouse_press (2, 3) Crop.init,
        current_tool := some .crop, color := red }).toOption.map
      (fun st => st.crop.end_point) = some (some (5, 5)) := by
  refine ⟨rfl, rfl, ?_, ?_, ?_, rfl⟩
  · show some |(5 : ℚ) - 2| = some 3
    rw [show (5 : ℚ) - 2 = 3 from by norm_num,
      abs_of_nonneg (by norm_num : (0 : ℚ) ≤ 3)]
  · show some |(5 : ℚ) - 3| = some 2
    rw [show (5 : ℚ) - 3 = 2 from by norm_num,
      abs_of_nonneg (by norm_num : (0 : ℚ) ≤ 2)]
  · show some ((2 : ℚ) + 0, (3 : ℚ) + 0, (0 : ℚ), (1 : ℚ)) = some (2, 3, 0, 1)
    norm_num

/-- Redrawing the committed pen history never faults when every committed
stroke has a colour. -/
theorem pen_hist_ok_any (paths : List Pen.Stroke) :
    ∀ ctx : Ctx, (∀ p ∈ paths, p.color.isSome = true) →
    ∃ ctx', List.foldlM (fun ctx p => Pen.draw_path p.points p.color ctx) ctx paths =
      .ok ctx' := by
  induction paths with
  | nil => exact fun ctx _ => ⟨ctx, rfl⟩
  | cons p ps ih =>
    intro ctx h
    obtain ⟨c, hc⟩ := Option.isSome_iff_exists.mp (h p (List.mem_cons_self p ps))
    obtain ⟨ctx', h'⟩ := ih (Pen.drawPathLoop p.points (ctx.setSourceRgba c))
      (fun q hq => h q (List.mem_cons_of_mem p hq))
    have hhead : Pen.draw_path p.points p.color ctx =
        .ok (Pen.drawPathLoop p.points (ctx.setSourceRgba c)) := by
      unfold Pen.draw_path
      rw [hc]
      rfl
    refine ⟨ctx', ?_⟩
    rw [List.foldlM_cons, hhead, ok_bind, h']

/-- `Pen._draw` never faults when the current colour and every committed
colour are set. -/
theorem pen_draw_ok_any (s : Pen.State) (hc : s.color.isSome = true)
    (hp : ∀ p ∈ s.paths, p.color.isSome = true) :
    ∃ ctx', Pen.draw s = .ok { s with ctx := ctx' } := by
  obtain ⟨c, hc'⟩ := Option.isSome_iff_exists.mp hc
  obtain ⟨ctx1, h1⟩ := pen_hist_ok_any s.paths s.ctx.clearSurface hp
  refine ⟨Pen.drawPathLoop s.path (ctx1.setSourceRgba c), ?_⟩
  unfold Pen.draw
  simp only [h1, ok_bind]
  rw [hc']
  rfl

/-- `Rectangle._draw_rectangle` never faults when both points and the
colour are present. -/
theorem draw_rectangle_ok_any (sp ep : Option Pt) (c : Option Color)
    (h1 : sp.isSome = true) (h2 : ep.isSome = true) (h3 : c.isSome = true) (ctx : Ctx) :
    ∃ ctx', Rectangle.draw_rectangle sp ep c ctx = .ok ctx' := by
  obtain ⟨st, hst⟩ := Option.isSome_iff_exists.mp h1
  obtain ⟨e, he⟩ := Option.isSome_iff_exists.mp h2
  obtain ⟨cc, hcc⟩ := Option.isSome_iff_exists.mp h3
  subst hst he hcc
  exact ⟨_, rfl⟩

/-- Redrawing the committed rectangle history never faults when every
committed rectangle is drawable. -/
theorem rect_hist_ok_any (rects : List Rectangle.R) :
    ∀ ctx : Ctx, rectsOk rects →
    ∃ ctx', List.foldlM (fun ctx r => Rectangle.draw_rectangle r.points.1 r.points.2 r.color ctx)
      ctx rects = .ok ctx' := by
  induction rects with
  | nil => exact fun ctx _ => ⟨ctx, rfl⟩
  | cons r rs ih =>
    intro ctx h
    obtain ⟨hp1, hp2, hp3⟩ := h r (List.mem_cons_self r rs)
    obtain ⟨ctx1, hr1⟩ := draw_rectangle_ok_any r.points.1 r.points.2 r.color hp1 hp2 hp3 ctx
    obtain ⟨ctx', h'⟩ := ih ctx1 (fun q hq => h q (List.mem_cons_of_mem r hq))
    refine ⟨ctx', ?_⟩
    rw [List.foldlM_cons, hr1, ok_bind, h']

/-- `Rectangle._draw` never faults when the committed rectangles are
drawable and, if a transient start point exists, the end point and colour
are present. -/
theorem rect_draw_ok_any (s : Rectangle.State) (hr : rectsOk s.rectangles)
    (ht : s.start_point.isSome = true → s.end_point.isSome = true ∧ s.color.isSome = true) :
    ∃ ctx', Rectangle.draw s = .ok { s with ctx := ctx' } := by
  obtain ⟨ctx1, h1⟩ := rect_hist_ok_any s.rectangles s.ctx.clearSurface hr
  cases hsp : s.start_point with
  | none =>
      refine ⟨ctx1, ?_⟩
      unfold Rectangle.draw
      simp only [h1, ok_bind]
      rw [hsp]
      rfl
  | some p =>
      obtain ⟨h2, h3⟩ := ht (by simp [hsp])
      obtain ⟨e, he⟩ := Option.isSome_iff_exists.mp h2
      obtain ⟨cc, hcol⟩ := Option.isSome_iff_exists.mp h3
      refine ⟨((ctx1.setSourceRgba cc).rectanglePath p (e.1 - p.1) (e.2 - p.2)).stroke, ?_⟩
      unfold Rectangle.draw
      simp only [h1, ok_bind]
      rw [hsp, he, hcol]
      rfl

/-- C7: committing one shape (a release) and then calling `undo()` restores
the committed history exactly, for Pen and for Rectangle. -/
theorem commit_undo_inverse (s : Pen.State) (r : Rectangle.State) (q : Pt)
    (hc : s.color.isSome = true) (hp : ∀ p ∈ s.paths, p.color.isSome = true)
    (hrs : r.start_point.isSome = true) (hrc : r.color.isSome = true)
    (hrr : rectsOk r.rectangles) :
    (∃ s', Pen.undo (Pen.on_mouse_release s) = .ok s' ∧ s'.paths = s.paths) ∧
    (∃ r', (Rectangle.on_mouse_release q r >>= Rectangle.undo) = .ok r' ∧
      r'.rectangles = r.rectangles) := by
  constructor
  · have hdrop : (s.paths ++ [(⟨s.path, s.color⟩ : Pen.Stroke)]).dropLast = s.paths :=
      List.dropLast_concat
    obtain ⟨ctx', hd⟩ := pen_draw_ok_any
      { Pen.on_mouse_release s with paths := s.paths } hc hp
    refine ⟨{ Pen.on_mouse_release s with paths := s.paths, ctx := ctx' }, ?_, rfl⟩
    simp only [Pen.undo, Pen.on_mouse_release, List.length_append, List.length_cons,
      List.length_nil, hdrop]
    rw [if_pos (by omega)]
    exact hd
  · have hnew : rectsOk (r.rectangles ++ [(⟨(r.start_point, some q), r.color⟩ : Rectangle.R)]) := by
      intro x hx
      rcases List.mem_append.mp hx with hx | hx
      · exact hrr x hx
      · simp only [List.mem_singleton] at hx
        subst hx
        exact ⟨hrs, by simp, hrc⟩
    obtain ⟨ctx1, h1⟩ := rect_draw_ok_any { r with rectangles := r.rectangles ++ [(⟨(r.start_point, some q), r.color⟩ : Rectangle.R)], start_point := none, end_point := none } hnew (by simp)
    obtain ⟨ctx2, h2⟩ := rect_draw_ok_any { rectangles := r.rectangles, start_point := none, end_point := none, color := r.color, ctx := ctx1 } hrr (by simp)
    refine ⟨{ rectangles := r.rectangles, start_point := none, end_point := none, color := r.color, ctx := ctx2 }, ?_, rfl⟩
    rw [Rectangle.on_mouse_release, h1, ok_bind]
    simp only [Rectangle.undo, List.length_append, List.length_cons, List.length_nil,
      List.dropLast_concat]
    rw [if_pos (by omega)]
    exact h2

/-- A degenerate subpath strokes to nothing. -/
theorem degen_strokePrims {sp : SubP} (h : degenSub sp = true) (c : Color) (w : ℚ) :
    sp.strokePrims c w = [] := by
  cases sp with
  | pts l =>
      cases l with
      | nil => rfl
      | cons a t =>
          cases t with
          | nil => rfl
          | cons b t2 => simp [degenSub] at h
  | rect p w2 h2 => simp [degenSub] at h

/-- A path of degenerate subpaths strokes to nothing. -/
theorem degen_flatMap {path : List SubP} (h : degenPath path = true) (c : Color) (w : ℚ) :
    path.flatMap (SubP.strokePrims c w) = [] := by
  induction path with
  | nil => rfl
  | cons sp rest ih =>
      rw [degenPath, List.all_cons, Bool.and_eq_true] at h
      simp [degen_strokePrims h.1, ih h.2]

/-- Characterization of the `Pen._draw_path` loop: starting from a context
whose current path strokes to nothing, it deposits exactly one line segment
per consecutive point pair, in the current source and line width, and
leaves a degenerate path residue. -/
theorem drawPathLoop_spec (pts : List Pt) :
    ∀ ctx : Ctx, degenPath ctx.path = true →
    (Pen.drawPathLoop pts ctx).prims = ctx.prims ++ pairSegs ctx.source ctx.lineWidth pts ∧
    (Pen.drawPathLoop pts ctx).lineWidth = ctx.lineWidth ∧
    (Pen.drawPathLoop pts ctx).source = ctx.source ∧
    degenPath (Pen.drawPathLoop pts ctx).path = true := by
  induction pts with
  | nil => intro ctx h; exact ⟨by simp [Pen.drawPathLoop, pairSegs], rfl, rfl, h⟩
  | cons p rest ih =>
      intro ctx h
      cases rest with
      | nil =>
          refine ⟨by simp [Pen.drawPathLoop, Ctx.moveTo, pairSegs], rfl, rfl, ?_⟩
          simp only [Pen.drawPathLoop, Ctx.moveTo, degenPath, List.all_append]
          rw [degenPath] at h
          simp [h, degenSub]
      | cons q rest2 =>
          have hlt : ((ctx.moveTo p).lineTo q).path = ctx.path ++ [SubP.pts [p, q]] := by
            unfold Ctx.lineTo Ctx.moveTo
            rw [List.getLast?_concat]
            simp [List.dropLast_concat]
          have hstep : ((ctx.moveTo p).lineTo q).stroke =
              { ctx with prims := ctx.prims ++ [Prim.line p q ctx.source ctx.lineWidth], path := [] } := by
            unfold Ctx.stroke
            rw [hlt, List.flatMap_append, degen_flatMap h]
            have hsrc : ((ctx.moveTo p).lineTo q).source = ctx.source := by
              unfold Ctx.lineTo Ctx.moveTo
              rw [List.getLast?_concat]
            have hlw : ((ctx.moveTo p).lineTo q).lineWidth = ctx.lineWidth := by
              unfold Ctx.lineTo Ctx.moveTo
              rw [List.getLast?_concat]
            have hpr : ((ctx.moveTo p).lineTo q).prims = ctx.prims := by
              unfold Ctx.lineTo Ctx.moveTo
              rw [List.getLast?_concat]
            rw [hsrc, hlw, hpr]
            simp [SubP.strokePrims, pairSegs]
          have hrw : Pen.drawPathLoop (p :: q :: rest2) ctx =
              Pen.drawPathLoop (q :: rest2) (((ctx.moveTo p).lineTo q).stroke) := rfl
          rw [hrw, hstep]
          obtain ⟨h1, h2, h3, h4⟩ := ih
            { ctx with prims := ctx.prims ++ [Prim.line p q ctx.source ctx.lineWidth], path := [] } rfl
          refine ⟨?_, h2, h3, h4⟩
          rw [h1]
          simp [pairSegs]

/-- Characterization of `Pen._draw_path` with a present colour. -/
theorem draw_path_spec (pts : List Pt) (c : Color) (ctx : Ctx)
    (h : degenPath ctx.path = true) :
    ∃ ctx', Pen.draw_path pts (some c) ctx = .ok ctx' ∧
      ctx'.prims = ctx.prims ++ pairSegs c ctx.lineWidth pts ∧
      ctx'.lineWidth = ctx.lineWidth ∧ degenPath ctx'.path = true := by
  obtain ⟨h1, h2, h3, h4⟩ := drawPathLoop_spec pts (ctx.setSourceRgba c) h
  exact ⟨Pen.drawPathLoop pts (ctx.setSourceRgba c), rfl, h1, h2, h4⟩

/-- Characterization of redrawing the committed pen history. -/
theorem pen_hist_spec (paths : List Pen.Stroke) :
    ∀ ctx : Ctx, (∀ p ∈ paths, p.color.isSome = true) → degenPath ctx.path = true →
    ∃ ctx', List.foldlM (fun ctx p => Pen.draw_path p.points p.color ctx) ctx paths =
        .ok ctx' ∧
      ctx'.prims = ctx.prims ++ penHistPrims ctx.lineWidth paths ∧
      ctx'.lineWidth = ctx.lineWidth ∧ degenPath ctx'.path = true := by
  induction paths with
  | nil => exact fun ctx _ h => ⟨ctx, rfl, by simp [penHistPrims], rfl, h⟩
  | cons p ps ih =>
      intro ctx hcol h
      obtain ⟨c, hc⟩ := Option.isSome_iff_exists.mp (hcol p (List.mem_cons_self p ps))
      obtain ⟨ctx1, e1, hp1, hw1, hd1⟩ := draw_path_spec p.points c ctx h
      obtain ⟨ctx', e', hp', hw', hd'⟩ := ih ctx1
        (fun x hx => hcol x (List.mem_cons_of_mem p hx)) hd1
      refine ⟨ctx', ?_, ?_, by rw [hw', hw1], hd'⟩
      · rw [List.foldlM_cons, hc, e1, ok_bind, e']
      · rw [hp', hp1, hw1]
        simp [penHistPrims, penStrokePrims, strokeColor, hc, List.flatMap_cons]

/-- Characterization of `Pen._draw`: a full clear and redraw deposits
exactly the deterministic re-render of history ++ transient. -/
theorem pen_draw_spec (s : Pen.State) (hc : s.color.isSome = true)
    (hp : ∀ p ∈ s.paths, p.color.isSome = true) (hd : degenPath s.ctx.path = true) :
    ∃ ctx', Pen.draw s = .ok { s with ctx := ctx' } ∧
      ctx'.prims = penSurfaceSpec s ∧
      ctx'.lineWidth = s.ctx.lineWidth ∧ degenPath ctx'.path = true := by
  obtain ⟨c, hc'⟩ := Option.isSome_iff_exists.mp hc
  obtain ⟨ctx1, e1, hp1, hw1, hd1⟩ := pen_hist_spec s.paths s.ctx.clearSurface hp hd
  obtain ⟨ctx2, e2, hp2, hw2, hd2⟩ := draw_path_spec s.path c ctx1 hd1
  refine ⟨ctx2, ?_, ?_, by rw [hw2, hw1]; rfl, hd2⟩
  · unfold Pen.draw
    simp only [e1, ok_bind]
    rw [hc', e2]
    rfl
  · rw [hp2, hp1, hw1]
    simp [penSurfaceSpec, Ctx.clearSurface, strokeColor, hc']

/-- Characterization of `Rectangle._draw_rectangle` with present fields and
an empty current path: it deposits exactly one stroked-rectangle primitive
at the context's line width. -/
theorem draw_rectangle_spec (st e : Pt) (c : Color) (ctx : Ctx) (h : ctx.path = []) :
    Rectangle.draw_rectangle (some st) (some e) (some c) ctx =
      .ok { ctx with source := c, path := [], prims := ctx.prims ++ [Prim.rectStroke st (e.1 - st.1) (e.2 - st.2) c ctx.lineWidth] } := by
  unfold Rectangle.draw_rectangle
  simp only [starStar_some, sub0_some, ok_bind]
  unfold Ctx.stroke Ctx.rectanglePath Ctx.setSourceRgba
  rw [h]
  rfl

/-- Characterization of redrawing the committed rectangle history. -/
theorem rect_hist_spec (rects : List Rectangle.R) :
    ∀ ctx : Ctx, rectsOk rects → ctx.path = [] →
    ∃ ctx', List.foldlM
        (fun ctx r => Rectangle.draw_rectangle r.points.1 r.points.2 r.color ctx) ctx rects =
        .ok ctx' ∧
      ctx'.prims = ctx.prims ++ rectHistPrims ctx.lineWidth rects ∧
      ctx'.path = [] ∧ ctx'.lineWidth = ctx.lineWidth := by
  induction rects with
  | nil => exact fun ctx _ h => ⟨ctx, rfl, by simp [rectHistPrims], h, rfl⟩
  | cons r rs ih =>
      intro ctx hok h
      obtain ⟨h1, h2, h3⟩ := hok r (List.mem_cons_self r rs)
      obtain ⟨st, hst⟩ := Option.isSome_iff_exists.mp h1
      obtain ⟨e, he⟩ := Option.isSome_iff_exists.mp h2
      obtain ⟨c, hcol⟩ := Option.isSome_iff_exists.mp h3
      have hhead := draw_rectangle_spec st e c ctx h
      obtain ⟨ctx', e', hp', hpath', hw'⟩ := ih
        { ctx with source := c, path := [], prims := ctx.prims ++ [Prim.rectStroke st (e.1 - st.1) (e.2 - st.2) c ctx.lineWidth] }
        (fun x hx => hok x (List.mem_cons_of_mem r hx)) rfl
      refine ⟨ctx', ?_, ?_, hpath', by rw [hw']⟩
      · rw [List.foldlM_cons, hst, he, hcol, hhead, ok_bind, e']
      · rw [hp']
        simp [rectHistPrims, rectPrims, hst, he, hcol, List.flatMap_cons]

/-- Characterization of `Rectangle._draw`: a full clear and redraw deposits
exactly the deterministic re-render of history ++ transient-if-present. -/
theorem rect_draw_spec (s : Rectangle.State) (hr : rectsOk s.rectangles)
    (hpath : s.ctx.path = [])
    (ht : s.start_point.isSome = true → s.end_point.isSome = true ∧ s.color.isSome = true) :
    ∃ ctx', Rectangle.draw s = .ok { s with ctx := ctx' } ∧
      ctx'.prims = rectSurfaceSpec s ∧
      ctx'.path = [] ∧ ctx'.lineWidth = s.ctx.lineWidth := by
  obtain ⟨ctx1, e1, hp1, hpath1, hw1⟩ := rect_hist_spec s.rectangles s.ctx.clearSurface hr hpath
  cases hsp : s.start_point with
  | none =>
      refine ⟨ctx1, ?_, ?_, hpath1, by rw [hw1]; rfl⟩
      · unfold Rectangle.draw
        simp only [e1, ok_bind]
        rw [hsp]
        rfl
      · rw [hp1]
        simp [rectSurfaceSpec, Ctx.clearSurface, hsp]
  | some p =>
      obtain ⟨h2, h3⟩ := ht (by simp [hsp])
      obtain ⟨e, he⟩ := Option.isSome_iff_exists.mp h2
      obtain ⟨c, hcol⟩ := Option.isSome_iff_exists.mp h3
      have hhead := draw_rectangle_spec p e c ctx1 hpath1
      refine ⟨{ ctx1 with source := c, path := [], prims := ctx1.prims ++ [Prim.rectStroke p (e.1 - p.1) (e.2 - p.2) c ctx1.lineWidth] }, ?_, ?_, rfl, by rw [hw1]; rfl⟩
      · unfold Rectangle.draw
        simp only [e1, ok_bind]
        rw [hsp, he, hcol]
        simp only [Option.isSome_some, if_true, hhead, ok_bind]
        rfl
      · rw [hp1, hw1]
        simp [rectSurfaceSpec, Ctx.clearSurface, rectPrims, hsp, he, hcol]

/-- One well-formed event preserves the Pen invariant and never faults. -/
theorem pen_step_inv (e : Ev) (b b' : Bool) (s : Pen.State)
    (hstep : dfaStep b e = some b') (hI : PenInv b s) :
    ∃ s', Pen.step s e = .ok s' ∧ PenInv b' s' := by
  obtain ⟨hprims, hcols, hdeg, hlw3, hidle, hdrawC, hnone, hsomeW⟩ := hI
  cases e with
  | press c p =>
      cases b with
      | true => simp [dfaStep] at hstep
      | false =>
          have hb' : b' = true := by
            simp only [dfaStep, Option.some.injEq] at hstep
            exact hstep.symm
          subst hb'
          have hpath : s.path = [] := hidle rfl
          refine ⟨Pen.on_mouse_press c s, rfl, ?_, hcols, hdeg, hlw3,
            fun h => by simp at h, fun _ => rfl, fun h => by simp [Pen.on_mouse_press] at h,
            fun _ => by simp [Pen.on_mouse_press, Ctx.setLineWidth, hlw3]⟩
          show s.ctx.prims = penSurfaceSpec (Pen.on_mouse_press c s)
          cases hco : s.color with
          | none =>
              obtain ⟨hp0, _, _⟩ := hnone hco
              rw [hprims]
              simp [penSurfaceSpec, Pen.on_mouse_press, Ctx.setLineWidth, penHistPrims,
                hp0, hpath, pairSegs]
          | some c0 =>
              have hw3 : s.ctx.lineWidth = 3 := hsomeW (by simp [hco])
              rw [hprims]
              simp [penSurfaceSpec, Pen.on_mouse_press, Ctx.setLineWidth, hpath,
                pairSegs, hw3, hlw3]
  | move p =>
      cases b with
      | false => simp [dfaStep] at hstep
      | true =>
          have hb' : b' = true := by
            simp only [dfaStep, Option.some.injEq] at hstep
            exact hstep.symm
          subst hb'
          obtain ⟨ctx', e', hp', hw', hd'⟩ := pen_draw_spec
            { s with path := s.path ++ [p] } (hdrawC rfl) hcols hdeg
          refine ⟨_, e', ?_, hcols, hd', hlw3, fun h => by simp at h, fun _ => hdrawC rfl,
            fun h => by simp at h; exact absurd (hdrawC rfl) (by simp [h]),
            fun _ => by show ctx'.lineWidth = 3; rw [hw']; exact hsomeW (hdrawC rfl)⟩
          show ctx'.prims = penSurfaceSpec _
          rw [hp']
          simp [penSurfaceSpec, hw']
  | release p =>
      cases b with
      | false => simp [dfaStep] at hstep
      | true =>
          have hb' : b' = false := by
            simp only [dfaStep, Option.some.injEq] at hstep
            exact hstep.symm
          subst hb'
          obtain ⟨c0, hc0⟩ := Option.isSome_iff_exists.mp (hdrawC rfl)
          refine ⟨Pen.on_mouse_release s, rfl, ?_, ?_, hdeg, hlw3, fun _ => rfl,
            fun h => by simp at h,
            fun h => by simp [Pen.on_mouse_release] at h; exact absurd (hdrawC rfl) (by simp [h]),
            fun h => hsomeW (hdrawC rfl)⟩
          · show s.ctx.prims = penSurfaceSpec (Pen.on_mouse_release s)
            rw [hprims]
            simp [penSurfaceSpec, Pen.on_mouse_release, penHistPrims,
              List.flatMap_append, List.flatMap_cons, penStrokePrims, strokeColor,
              hc0, pairSegs]
          · intro x hx
            rcases List.mem_append.mp hx with hx | hx
            · exact hcols x hx
            · simp only [List.mem_singleton] at hx
              subst hx
              simp [hc0]
  | undo =>
      cases b with
      | true => simp [dfaStep] at hstep
      | false =>
          have hb' : b' = false := by
            simp only [dfaStep, Option.some.injEq] at hstep
            exact hstep.symm
          subst hb'
          cases hps : s.paths with
          | nil =>
              refine ⟨s, ?_, hprims, hcols, hdeg, hlw3, hidle, fun h => by simp at h,
                hnone, hsomeW⟩
              simp [Pen.step, Pen.undo, hps, Except.pure]
          | cons p0 ps0 =>
              have hcs : s.color.isSome = true := by
                cases hco : s.color with
                | none =>
                    have := (hnone hco).1
                    rw [hps] at this
                    exact absurd this (by simp)
                | some _ => rfl
              have hsub : ∀ x ∈ s.paths.dropLast, x.color.isSome = true :=
                fun x hx => hcols x (List.Sublist.subset (List.dropLast_sublist s.paths) hx)
              obtain ⟨ctx', e', hp', hw', hd'⟩ := pen_draw_spec
                { s with paths := s.paths.dropLast } hcs hsub hdeg
              refine ⟨{ s with paths := s.paths.dropLast, ctx := ctx' }, ?_, ?_, hsub, hd',
                hlw3, fun _ => hidle rfl,
                fun h => by simp at h,
                fun h => by simp at h; exact absurd hcs (by simp [h]),
                fun _ => by show ctx'.lineWidth = 3; rw [hw']; exact hsomeW hcs⟩
              · show Pen.undo s = _
                unfold Pen.undo
                rw [if_pos (by rw [hps]; simp)]
                exact e'
              · show ctx'.prims = penSurfaceSpec _
                rw [hp']
                simp [penSurfaceSpec, hw']

/-- A well-formed event run on a Pen never faults and preserves the
invariant. -/
theorem pen_run_inv (evs : List Ev) :
    ∀ b s, wfFrom b evs = true → PenInv b s →
    ∃ b' s', Pen.runFrom s evs = .ok s' ∧ PenInv b' s' := by
  induction evs with
  | nil => exact fun b s _ hI => ⟨b, s, rfl, hI⟩
  | cons e evs ih =>
      intro b s hwf hI
      rw [wfFrom] at hwf
      cases hd : dfaStep b e with
      | none => rw [hd] at hwf; simp at hwf
      | some b1 =>
          rw [hd] at hwf
          simp only [] at hwf
          obtain ⟨s1, e1, hI1⟩ := pen_step_inv e b b1 s hd hI
          obtain ⟨b', s', e', hI'⟩ := ih b1 s1 hwf hI1
          refine ⟨b', s', ?_, hI'⟩
          show List.foldlM Pen.step s (e :: evs) = .ok s'
          rw [List.foldlM_cons, e1, ok_bind]
          exact e'

/-- The freshly constructed Pen satisfies the invariant in the Idle state. -/
theorem penInv_init : PenInv false Pen.init := by
  refine ⟨rfl, ?_, rfl, rfl, fun _ => rfl, ?_, fun _ => ⟨rfl, rfl, rfl⟩, ?_⟩
  · intro p hp
    simp [Pen.init] at hp
  · intro h
    simp at h
  · intro h
    simp [Pen.init] at h

/-- One well-formed event preserves the Rectangle invariant and never
faults; after the event, the just-pressed flag is exactly "the event was a
press". -/
theorem rect_step_inv (e : Ev) (b b' jp : Bool) (s : Rectangle.State)
    (hstep : dfaStep b e = some b') (hI : RectInv b jp s) :
    ∃ s', Rectangle.step s e = .ok s' ∧ RectInv b' (isPressEv e) s' := by
  obtain ⟨hprims, hok, hpath, hidle, hdrawing, hjp⟩ := hI
  cases e with
  | press c p =>
      cases b with
      | true => simp [dfaStep] at hstep
      | false =>
          have hb' : b' = true := by
            simp only [dfaStep, Option.some.injEq] at hstep
            exact hstep.symm
          subst hb'
          refine ⟨Rectangle.on_mouse_press c p s, rfl, ?_, hok, hpath,
            fun h => by simp at h, fun _ => by simp [Rectangle.on_mouse_press],
            fun _ => rfl⟩
          show s.ctx.prims = rectHistPrims s.ctx.lineWidth s.rectangles
          rw [hprims]
          cases jp with
          | true => rfl
          | false =>
              simp [rectSurfaceSpec, hidle rfl]
  | move p =>
      cases b with
      | false => simp [dfaStep] at hstep
      | true =>
          have hb' : b' = true := by
            simp only [dfaStep, Option.some.injEq] at hstep
            exact hstep.symm
          subst hb'
          obtain ⟨hs1, hs2, hs3⟩ := hdrawing rfl
          obtain ⟨ctx', e', hp', hpath', hw'⟩ := rect_draw_spec
            { s with end_point := some p } hok hpath (fun _ => ⟨by simp, hs3⟩)
          refine ⟨_, e', ?_, hok, hpath', fun h => by simp at h,
            fun _ => ⟨hs1, by simp, hs3⟩, fun h => by simp [isPressEv] at h⟩
          show ctx'.prims = _
          rw [hp']
          simp only [isPressEv, Bool.false_eq_true, if_false]
          simp [rectSurfaceSpec, hw']
  | release p =>
      cases b with
      | false => simp [dfaStep] at hstep
      | true =>
          have hb' : b' = false := by
            simp only [dfaStep, Option.some.injEq] at hstep
            exact hstep.symm
          subst hb'
          obtain ⟨hs1, hs2, hs3⟩ := hdrawing rfl
          have hnewOk : rectsOk (s.rectangles ++ [(⟨(s.start_point, some p), s.color⟩ : Rectangle.R)]) := by
            intro x hx
            rcases List.mem_append.mp hx with hx | hx
            · exact hok x hx
            · simp only [List.mem_singleton] at hx
              subst hx
              exact ⟨hs1, by simp, hs3⟩
          obtain ⟨ctx', e', hp', hpath', hw'⟩ := rect_draw_spec
            { s with rectangles := s.rectangles ++ [(⟨(s.start_point, some p), s.color⟩ : Rectangle.R)], start_point := none, end_point := none }
            hnewOk hpath (fun h => by simp at h)
          refine ⟨{ s with rectangles := s.rectangles ++ [(⟨(s.start_point, some p), s.color⟩ : Rectangle.R)], start_point := none, end_point := none, ctx := ctx' }, ?_, ?_, hnewOk, hpath', fun _ => rfl,
            fun h => by simp at h, fun h => by simp [isPressEv] at h⟩
          · exact e'
          · show ctx'.prims = _
            rw [hp']
            simp only [isPressEv, Bool.false_eq_true, if_false]
            simp [rectSurfaceSpec, hw']
  | undo =>
      cases b with
      | true => simp [dfaStep] at hstep
      | false =>
          have hb' : b' = false := by
            simp only [dfaStep, Option.some.injEq] at hstep
            exact hstep.symm
          subst hb'
          have hjpf : jp = false := by
            cases hj : jp with
            | false => rfl
            | true => exact absurd (hjp hj) (by simp)
          subst hjpf
          rw [if_neg (by simp)] at hprims
          cases hrs : s.rectangles with
          | nil =>
              refine ⟨s, ?_, ?_, hok, hpath, hidle, fun h => by simp at h,
                fun h => by simp [isPressEv] at h⟩
              · simp [Rectangle.step, Rectangle.undo, hrs, Except.pure]
              · rw [if_neg (by simp [isPressEv])]
                exact hprims
          | cons r0 rs0 =>
              have hsubOk : rectsOk s.rectangles.dropLast :=
                fun x hx => hok x (List.Sublist.subset (List.dropLast_sublist s.rectangles) hx)
              obtain ⟨ctx', e', hp', hpath', hw'⟩ := rect_draw_spec
                { s with rectangles := s.rectangles.dropLast } hsubOk hpath
                (fun h => by rw [hidle rfl] at h; simp at h)
              refine ⟨{ s with rectangles := s.rectangles.dropLast, ctx := ctx' }, ?_, ?_,
                hsubOk, hpath', fun _ => hidle rfl, fun h => by simp at h,
                fun h => by simp [isPressEv] at h⟩
              · show Rectangle.undo s = _
                unfold Rectangle.undo
                rw [if_pos (by rw [hrs]; simp)]
                exact e'
              · show ctx'.prims = _
                rw [hp']
                simp only [isPressEv, Bool.false_eq_true, if_false]
                simp [rectSurfaceSpec, hw']

/-- A well-formed event run on a Rectangle never faults and preserves the
invariant, ending with the just-pressed flag exactly when the run ends in a
press. -/
theorem rect_run_inv (evs : List Ev) :
    ∀ b jp s, wfFrom b evs = true → RectInv b jp s →
    ∃ b' s', Rectangle.runFrom s evs = .ok s' ∧
      RectInv b' (if evs.isEmpty then jp else lastIsPress evs) s' := by
  induction evs with
  | nil => exact fun b jp s _ hI => ⟨b, s, rfl, by simpa using hI⟩
  | cons e evs ih =>
      intro b jp s hwf hI
      rw [wfFrom] at hwf
      cases hd : dfaStep b e with
      | none => rw [hd] at hwf; simp at hwf
      | some b1 =>
          rw [hd] at hwf
          simp only [] at hwf
          obtain ⟨s1, e1, hI1⟩ := rect_step_inv e b b1 jp s hd hI
          obtain ⟨b', s', e', hI'⟩ := ih b1 (isPressEv e) s1 hwf hI1
          refine ⟨b', s', ?_, ?_⟩
          · show List.foldlM Rectangle.step s (e :: evs) = .ok s'
            rw [List.foldlM_cons, e1, ok_bind]
            exact e'
          · have hidx : (if (e :: evs).isEmpty then jp else lastIsPress (e :: evs)) =
                (if evs.isEmpty then isPressEv e else lastIsPress evs) := by
              simp [lastIsPress]
            rw [hidx]
            exact hI'

/-- The freshly constructed Rectangle satisfies the invariant in the Idle
state. -/
theorem rectInv_init : RectInv false false Rectangle.init := by
  refine ⟨rfl, ?_, rfl, fun _ => rfl, ?_, ?_⟩
  · intro x hx
    simp [Rectangle.init] at hx
  · intro h
    simp at h
  · intro h
    simp at h

/-- C5 (counterexample): immediately after `Rectangle.on_mouse_press` the
transient rectangle exists but no redraw was performed, so the surface does
NOT equal the full re-render of (history ++ transient): the surface is
empty while the re-render holds the degenerate transient rectangle. -/
theorem surface_rerender_counterexample :
    (Rectangle.run [.press red (0, 0)]).toOption.map (fun s => s.ctx.prims) = some [] ∧
    (Rectangle.run [.press red (0, 0)]).toOption.map rectSurfaceSpec =
      some [Prim.rectStroke (0, 0) 0 0 red 2] ∧
    ([] : List Prim) ≠ [Prim.rectStroke (0, 0) 0 0 red 2] := by
  refine ⟨rfl, ?_, by simp⟩
  show some (rectSurfaceSpec (Rectangle.on_mouse_press red (0, 0) Rectangle.init)) = _
  simp only [rectSurfaceSpec, rectHistPrims, rectPrims, Rectangle.on_mouse_press,
    Rectangle.init, Ctx.init, Option.isSome_some, if_true, List.flatMap_nil,
    List.nil_append]
  norm_num

/-- C5 (amended): along every well-formed event sequence neither tool
faults, the Pen surface always equals the deterministic full re-render of
(committed history ++ in-progress path), and the Rectangle surface does too
EXCEPT immediately after a press, where it shows only the re-render of the
committed history (the transient rectangle is not drawn until the first
move). Replay determinism holds because the runs are pure functions of the
event list. Not every mutation redraws: Pen's release and both tools'
presses deposit nothing. -/
theorem surface_rerender_amended (evs : List Ev) (h : WFEvents evs) :
    (∃ sp, Pen.run evs = .ok sp ∧ sp.ctx.prims = penSurfaceSpec sp) ∧
    (∃ sr, Rectangle.run evs = .ok sr ∧
      sr.ctx.prims = (if lastIsPress evs then rectHistPrims sr.ctx.lineWidth sr.rectangles
        else rectSurfaceSpec sr)) := by
  constructor
  · obtain ⟨b', sp, e', hI⟩ := pen_run_inv evs false Pen.init h penInv_init
    exact ⟨sp, e', hI.1⟩
  · obtain ⟨b', sr, e', hI⟩ := rect_run_inv evs false false Rectangle.init h rectInv_init
    refine ⟨sr, e', ?_⟩
    have hidx : (if evs.isEmpty then false else lastIsPress evs) = lastIsPress evs := by
      cases evs <;> simp [lastIsPress]
    rw [hidx] at hI
    exact hI.1

/-- C5 (witness): the amended statement evaluated on a concrete well-formed
press–move–release round. -/
theorem surface_rerender_amended_witness :
    WFEvents [Ev.press red (0, 0), Ev.move (3, 4), Ev.release (3, 4)] ∧
    ((∃ sp, Pen.run [Ev.press red (0, 0), Ev.move (3, 4), Ev.release (3, 4)] = .ok sp ∧
        sp.ctx.prims = penSurfaceSpec sp) ∧
      (∃ sr, Rectangle.run [Ev.press red (0, 0), Ev.move (3, 4), Ev.release (3, 4)] = .ok sr ∧
        sr.ctx.prims =
          (if lastIsPress [Ev.press red (0, 0), Ev.move (3, 4), Ev.release (3, 4)] then
            rectHistPrims sr.ctx.lineWidth sr.rectangles
          else rectSurfaceSpec sr))) :=
  ⟨rfl, surface_rerender_amended [Ev.press red (0, 0), Ev.move (3, 4), Ev.release (3, 4)] rfl⟩

/-- C7 (witness): commit-then-undo evaluated after a press on each fresh
tool. -/
theorem commit_undo_inverse_witness :
    (Pen.on_mouse_press red Pen.init).color.isSome = true ∧
    (Rectangle.on_mouse_press red (1, 1) Rectangle.init).start_point.isSome = true ∧
    ((∃ s', Pen.undo (Pen.on_mouse_release (Pen.on_mouse_press red Pen.init)) = .ok s' ∧
        s'.paths = (Pen.on_mouse_press red Pen.init).paths) ∧
      (∃ r', (Rectangle.on_mouse_release (3, 4) (Rectangle.on_mouse_press red (1, 1)
          Rectangle.init) >>= Rectangle.undo) = .ok r' ∧
        r'.rectangles = (Rectangle.on_mouse_press red (1, 1) Rectangle.init).rectangles)) :=
  ⟨rfl, rfl,
    commit_undo_inverse (Pen.on_mouse_press red Pen.init)
      (Rectangle.on_mouse_press red (1, 1) Rectangle.init) (3, 4) rfl
      (by intro p hp; simp [Pen.on_mouse_press, Pen.init] at hp) rfl rfl
      (by intro x hx; simp [Rectangle.on_mouse_press, Rectangle.init] at hx)⟩

end Scrann
